import Mathlib

/-!
Verification of the dbusjs wire-level core (signature-directed marshaller,
message framing, connection state machine) against its specification.

The TypeScript sources are shallowly embedded: byte buffers are `List Nat`
(each element a byte value), the growable `ArrayBuffer`-backed writer is a
pair of a memory function and a cursor, JavaScript 32-bit arithmetic is
modelled explicitly, and every fallible routine returns `Except String`.
-/

/-- Round `p` up to a multiple of `a`.  This is the `align` helper of
`src/message.ts` (`size * Math.trunc((offset + size - 1) / size)`), which for
natural numbers coincides with `Nat` division. -/
def alignUp (p a : Nat) : Nat := a * ((p + a - 1) / a)

/-- Little-endian byte decomposition of a 32-bit value, as produced by
`DataView.setUint32(_, v, true)`. -/
def u32le (v : Nat) : List Nat :=
  [v % 256, v / 256 % 256, v / 65536 % 256, v / 16777216 % 256]

/-- Read a byte from a byte list; out-of-range reads yield 0 (a fresh
`ArrayBuffer` is zero-initialised). -/
def byteAt : List Nat → Nat → Nat
  | [], _ => 0
  | b :: _, 0 => b
  | _ :: bs, n + 1 => byteAt bs n

/-- Little-endian 32-bit read at offset `i`, as `DataView.getUint32(i, true)`. -/
def readU32 (b : List Nat) (i : Nat) : Nat :=
  byteAt b i + 256 * byteAt b (i + 1) + 65536 * byteAt b (i + 2) +
    16777216 * byteAt b (i + 3)

/-! ## The byte cursor (`Writer` of `src/serialization.ts`)

The writer owns a `DataView` over a zero-initialised buffer and a cursor
`offset`.  Memory is modelled as a total function from offsets to bytes. -/

/-- Writer state: buffer contents and cursor position. -/
structure WState where
  mem : Nat → Nat
  pos : Nat

/-- A fresh writer over a zero-initialised buffer, cursor at 0. -/
def emptyW : WState := ⟨fun _ => 0, 0⟩

/-- Store one byte at offset `i` without moving the cursor
(`DataView.setUint8`). -/
def setByteAt (s : WState) (i v : Nat) : WState :=
  ⟨fun j => if j = i then v else s.mem j, s.pos⟩

/-- Store a 32-bit little-endian value at offset `i` without moving the cursor
(`DataView.setUint32(i, v, true)`). -/
def setU32At (s : WState) (i v : Nat) : WState :=
  setByteAt (setByteAt (setByteAt (setByteAt s i (v % 256))
    (i + 1) (v / 256 % 256)) (i + 2) (v / 65536 % 256)) (i + 3) (v / 16777216 % 256)

/-- `Writer.pad` exactly as written in `src/serialization.ts`:
`length -= this.offset % length; this.offset += length`.  Note that when the
cursor is already a multiple of `length` this advances by a full `length`
(the constructed `Uint8Array` is discarded, and the skipped bytes stay at
their zero-initialised value, so memory is unchanged). -/
def padJS (s : WState) (a : Nat) : WState :=
  ⟨s.mem, s.pos + (a - s.pos % a)⟩

/-- `Writer.writeByte`: store a byte at the cursor and advance by one. -/
def writeByteW (s : WState) (v : Nat) : WState :=
  ⟨(setByteAt s s.pos v).mem, s.pos + 1⟩

/-- Append a run of bytes at the cursor (used to model `encodeInto` results
and `Writer.append`). -/
def appendBytesW (s : WState) (bs : List Nat) : WState :=
  bs.foldl writeByteW s

/-- Store bytes starting at offset `i` WITHOUT advancing the cursor; this is
what `encodeString`'s `encodeInto` into a `Uint8Array` view does. -/
def writeBytesAtW : WState → Nat → List Nat → WState
  | s, _, [] => s
  | s, i, b :: bs => writeBytesAtW (setByteAt s i b) (i + 1) bs

/-- `Writer.writeUInt32`: pad to 4, store little-endian, advance 4. -/
def writeU32JS (s : WState) (v : Nat) : WState :=
  ⟨(setU32At (padJS s 4) (padJS s 4).pos v).mem, (padJS s 4).pos + 4⟩

/-- `Writer.writeString` exactly as in `src/serialization.ts`: pad to 4, store
the uint32 `value.length` at the cursor, then `encodeString` writes the text
bytes at the *same un-advanced* cursor (the code reads `this.offset` before
`+=` commits), advance by `5 + length`, and store a NUL at `offset - 1`.
Strings are modelled as their byte lists (ASCII, where `value.length` and the
UTF-8 byte count agree). -/
def writeStringJS (s : WState) (v : List Nat) : WState :=
  let s1 := padJS s 4
  let s2 := setU32At s1 s1.pos v.length
  let s3 := writeBytesAtW s2 s2.pos v
  setByteAt ⟨s3.mem, s3.pos + 5 + v.length⟩ (s3.pos + 5 + v.length - 1) 0

/-- The first `pos` bytes of the buffer, the data a reader would see. -/
def cloneW (s : WState) : List Nat := (List.range s.pos).map s.mem

/-- `ArraySerializer.serializeInto` of `src/serialization.ts`: remember the
position *before* anything is written, run `deferUInt32` (which pads to 4 and
reserves 4 bytes), marshal each element, then back-patch
`writer.position - startingPosition - 4` into the reserved slot.  The element
marshaller is a parameter, as the class delegates to its field serializers. -/
def arraySerializeIntoW {α : Type} (elemSer : WState → α → WState)
    (vals : List α) (s : WState) : WState :=
  let startingPosition := s.pos
  let s1 := padJS s 4
  let slot := s1.pos
  let s2 : WState := ⟨s1.mem, s1.pos + 4⟩
  let s3 := vals.foldl elemSer s2
  setU32At s3 slot (s3.pos - startingPosition - 4)

/-! ## Serial allocation (`Connection.sendAndReceive` of `src/transport.ts`)

The counter update is
`this.nextCallID = callID > (1 << 31) ? 1 : callID + 2;`
where `<<` is JavaScript's *signed* 32-bit shift, so `1 << 31` is negative. -/

/-- JavaScript `ToInt32`: reduce modulo 2^32 into the signed range. -/
def toInt32 (n : Nat) : Int :=
  if n % 4294967296 < 2147483648 then ((n % 4294967296 : Nat) : Int)
  else ((n % 4294967296 : Nat) : Int) - 4294967296

/-- JavaScript `a << b` on non-negative `a` (shift count taken mod 32). -/
def jsShl (a b : Nat) : Int := toInt32 (a * 2 ^ (b % 32))

/-- The `nextCallID` update of `Connection.sendAndReceive`. -/
def nextCallIDJS (callID : Nat) : Nat :=
  if (callID : Int) > jsShl 1 31 then 1 else callID + 2

/-- Serial stamped on the k-th outbound message (0-indexed): `nextCallID`
starts at 1 and is updated once per send. -/
def serialAt : Nat → Nat
  | 0 => 1
  | k + 1 => nextCallIDJS (serialAt k)

/-! ## The signature parser (`parseSignature` of `src/serialization.ts`)

Serializer objects become a tree datatype; `CompositeSerializerBuilder.build`
always constructs a `StructSerializer`, so there is no array node.  JavaScript
objects alias, so frames live in an explicit heap (`frames`), and the
`incomplete` stack and `current` hold frame indices; `push`/`pop` act on the
head of `stack`. -/

/-- The serializer value tree as built by the source classes. -/
inductive Ser where
  | primitive (c : Char)
  | str
  | sigSer
  | passthrough
  | structSer (fields : List Ser)

/-- Composite frame tags, mirroring `CompositeKind`. -/
inductive CKind where
  | array
  | struct
  | dict
deriving DecidableEq

/-- A `CompositeSerializerBuilder`: its tag and accumulated elements. -/
structure FrameV where
  kind : CKind
  elems : List Ser

/-- Parser state: the frame heap, the `incomplete` stack of frame indices
(top at head), and the `current` frame index. -/
structure PState where
  frames : List FrameV
  stack : List Nat
  cur : Nat

/-- Heap read with the (never-used) default frame. -/
def getFrame (fs : List FrameV) (i : Nat) : FrameV := fs.getD i ⟨CKind.struct, []⟩

/-- Append one element to the frame stored at index `i`. -/
def pushElem (fs : List FrameV) (i : Nat) (s : Ser) : List FrameV :=
  fs.set i ⟨(getFrame fs i).kind, (getFrame fs i).elems ++ [s]⟩

/-- `new SerializerBuilder()`: a root struct frame, referenced by both
`incomplete` and `current`. -/
def initPS : PState := ⟨[⟨CKind.struct, []⟩], [0], 0⟩

/-- `beginComposite`: allocate a frame, push it, make it current. -/
def beginComposite (st : PState) (k : CKind) : PState :=
  ⟨st.frames ++ [⟨k, []⟩], st.frames.length :: st.stack, st.frames.length⟩

/-- `add` / `addPrimitive` success path: push onto the current frame. -/
def addSer (st : PState) (s : Ser) : PState :=
  ⟨pushElem st.frames st.cur s, st.stack, st.cur⟩

/-- `CompositeSerializerBuilder.build`: empty composites are an error;
otherwise a `StructSerializer` over the elements (whatever the tag). -/
def frameBuild (f : FrameV) (sigStr : String) : Except String Ser :=
  if f.elems.isEmpty then
    .error ("Empty composite type in dbus signature: " ++ sigStr)
  else
    .ok (.structSer f.elems)

/-- The do-while of `endComposite`: build the current frame, pop the stack
into `current` (popping an empty stack is a JavaScript `TypeError`), deliver
the built serializer to it, and loop while the new current is an array
frame. -/
def endCompLoop (sigStr : String) (frames : List FrameV) (cur : Nat) :
    List Nat → Except String PState
  | [] =>
    match frameBuild (getFrame frames cur) sigStr with
    | .error e => .error e
    | .ok _ => .error "TypeError: popped undefined from incomplete"
  | top :: rest =>
    match frameBuild (getFrame frames cur) sigStr with
    | .error e => .error e
    | .ok s =>
      let frames1 := pushElem frames top s
      if (getFrame frames1 top).kind = CKind.array then
        endCompLoop sigStr frames1 top rest
      else
        .ok ⟨frames1, rest, top⟩

/-- `endComposite`: tag mismatch is an error, then run the do-while. -/
def endComposite (st : PState) (k : CKind) (sigStr : String) :
    Except String PState :=
  if (getFrame st.frames st.cur).kind ≠ k then
    .error ("Composite type mismatch in DBus signature: " ++ sigStr)
  else
    endCompLoop sigStr st.frames st.cur st.stack

/-- The primitive tokens registered in `PrimitiveSerializer.instances`
(keyed by the `DataType` constants). -/
def isPrimTok (c : Char) : Bool :=
  c = 'y' || c = 'b' || c = 'n' || c = 'i' || c = 'x' || c = 'q' || c = 't' ||
    c = 'u' || c = 'd'

/-- One iteration of the `parseSignature` token switch. -/
def tokStep (sigStr : String) (st : PState) (c : Char) : Except String PState :=
  if c = 'a' then .ok (beginComposite st CKind.array)
  else if c = Char.ofNat 123 then .ok (beginComposite st CKind.dict)
  else if c = '(' then .ok (beginComposite st CKind.struct)
  else if c = Char.ofNat 125 then endComposite st CKind.dict sigStr
  else if c = ')' then endComposite st CKind.struct sigStr
  else if c = 'o' ∨ c = 's' then .ok (addSer st Ser.str)
  else if c = 'g' then .ok (addSer st Ser.sigSer)
  else if c = 'v' then .ok (addSer st Ser.passthrough)
  else if isPrimTok c then .ok (addSer st (Ser.primitive c))
  else .error ("Unrecognized token \"" ++ String.singleton c ++
    "\" in DBus signature: " ++ sigStr)

/-- Fold the token switch over the characters. -/
def parseSigGo (sigStr : String) : PState → List Char → Except String PState
  | st, [] => .ok st
  | st, c :: cs =>
    match tokStep sigStr st c with
    | .error e => .error e
    | .ok st1 => parseSigGo sigStr st1 cs

/-- `parseSignature`: scan all tokens, then `SerializerBuilder.build`, which
rejects a still-multi-frame `incomplete` stack and otherwise builds the
*current* frame. -/
def parseSignature (sigStr : String) : Except String Ser :=
  match parseSigGo sigStr initPS sigStr.data with
  | .error e => .error e
  | .ok st =>
    if st.stack.length > 1 then
      .error ("Incomplete DBus signature: " ++ sigStr)
    else
      frameBuild (getFrame st.frames st.cur) sigStr

/-! ## Canonical D-Bus message encoding

The spec's data model (§3) fixes the wire layout of a valid little-endian
message: a 16-byte fixed header, the header-fields array whose 8-aligned
entries each carry `id`, a one-character type code framed as a signature, and
the value; the stored fields length counts up to the end of the last value;
then zero padding to an 8-boundary and the body.  These definitions encode
such messages so that claims quantifying over "valid messages" can be
stated; the repository's own builder is checked separately. -/

/-- A header-field value: a string-like value with its declared type byte
(115 `s` or 111 `o`), a uint32, or a signature. -/
inductive HVal where
  | hstr (tb : Nat) (s : List Nat)
  | hu32 (v : Nat)
  | hsig (s : List Nat)

/-- One header-fields array entry. -/
structure HEntry where
  id : Nat
  val : HVal

/-- Well-formedness of a header-field value: declared type bytes are genuine,
lengths fit their length fields, payload bytes are bytes. -/
def wfHVal : HVal → Prop
  | .hstr tb s => (tb = 111 ∨ tb = 115) ∧ s.length < 4294967296 ∧ ∀ b ∈ s, b < 256
  | .hu32 v => v < 4294967296
  | .hsig s => s.length < 256 ∧ ∀ b ∈ s, b < 256

instance : DecidablePred wfHVal := fun v => by
  cases v <;> simp [wfHVal] <;> infer_instance

/-- Well-formedness of a header entry. -/
def wfEntry (e : HEntry) : Prop := e.id < 256 ∧ wfHVal e.val

instance : DecidablePred wfEntry := fun e => by
  unfold wfEntry; infer_instance

/-- Wire bytes of one entry, starting at an 8-aligned offset: the id byte,
the one-character signature (length 1, type byte, NUL), then the value.
After the four fixed bytes the offset is 4-aligned, so uint32 and string
values need no further padding. -/
def entryBytes (e : HEntry) : List Nat :=
  match e.val with
  | .hstr tb s => [e.id, 1, tb, 0] ++ u32le s.length ++ s ++ [0]
  | .hu32 v => [e.id, 1, 117, 0] ++ u32le v
  | .hsig s => [e.id, 1, 103, 0] ++ [s.length] ++ s ++ [0]

/-- Encode the header-fields region starting at absolute offset `p`: each
entry is preceded by zero padding to the next 8-boundary. -/
def encodeEntriesFrom (p : Nat) : List HEntry → List Nat
  | [] => []
  | e :: es =>
    List.replicate (alignUp p 8 - p) 0 ++ entryBytes e ++
      encodeEntriesFrom (alignUp p 8 + (entryBytes e).length) es

/-- The 16-byte fixed message header: endianness `l`, kind, flags 0,
version 1, body length, serial, header-fields length. -/
def msgHeader16 (kind blen serial flen : Nat) : List Nat :=
  [108, kind, 0, 1] ++ u32le blen ++ u32le serial ++ u32le flen

/-- A complete valid little-endian message: the fixed header, the fields
region, zero padding to an 8-boundary, and the body. -/
def buildMessage (kind serial : Nat) (entries : List HEntry) (body : List Nat) :
    List Nat :=
  msgHeader16 kind body.length serial (encodeEntriesFrom 16 entries).length ++
    encodeEntriesFrom 16 entries ++
    List.replicate
      (alignUp (16 + (encodeEntriesFrom 16 entries).length) 8 -
        (16 + (encodeEntriesFrom 16 entries).length)) 0 ++ body

/-! ## The message reader (`Reader.getReplySerial` of `src/message.ts`)

The loop is `for (let n = 16; n < limit; n = align(n, 8))` with
`limit = getHeaderFieldsSize()` (note: the stored fields length itself, not
`16 +` it); the body reads the id at `n`, the type character at `n + 2`,
advances 4, and skips or returns the value by declared type.  Each iteration
advances `n` by at least 6, so `limit + 1` steps of fuel can never run out;
the fuel branch is unreachable. -/

/-- The scan loop of `getReplySerial`, with a step-count fuel. -/
def grsLoop (b : List Nat) (limit : Nat) : Nat → Nat → Except String Nat
  | 0, _ => .error "out of fuel"
  | fuel + 1, n =>
    if n < limit then
      let id := byteAt b n
      let t := byteAt b (n + 2)
      if t = 115 ∨ t = 111 then
        grsLoop b limit fuel (alignUp (n + 4 + (5 + readU32 b (n + 4))) 8)
      else if t = 117 then
        if id = 5 then .ok (readU32 b (n + 4))
        else grsLoop b limit fuel (alignUp (n + 4 + 4) 8)
      else if t = 103 then
        grsLoop b limit fuel (alignUp (n + 4 + (2 + byteAt b (n + 4))) 8)
      else .error "Unrecognized header data type"
    else .ok 0

/-- `Reader.getReplySerial`: scan from 16 with `limit` the stored
header-fields length. -/
def getReplySerial (b : List Nat) : Except String Nat :=
  grsLoop b (readU32 b 12) (readU32 b 12 + 1) 16

/-- Follows the claim's words: the same per-entry scan, but "from offset 16
up to 16 + fields_length".  Kept for comparison with `getReplySerial`. -/
def claimScanReplySerial (b : List Nat) : Except String Nat :=
  grsLoop b (16 + readU32 b 12) (16 + readU32 b 12 + 1) 16

/-! ## Stream reassembly (`Connection.onData` of `src/transport.ts`)

`onData` builds `new DataView(data.buffer)` — a view over the *backing
buffer*, not the subarray — so `getUint32(4)` and `getUint32(8)` always read
absolute offsets 4 and 8 of the original allocation, whatever
`data.subarray(...)` the loop has advanced to. -/

/-- A `Uint8Array` view: backing buffer plus byte offset. -/
structure JSView where
  buf : List Nat
  off : Nat

/-- `data.byteLength` of a view. -/
def viewLen (v : JSView) : Nat := v.buf.length - v.off

/-- The `messageLength` the loop computes: `view.getUint32(4, true)` over the
backing buffer. -/
def onDataMessageLength (v : JSView) : Nat := readU32 v.buf 4

/-- The dispatch key the loop computes: `view.getUint32(8, true)` over the
backing buffer (the message's own serial field). -/
def onDataKey (v : JSView) : Nat := readU32 v.buf 8

/-- The do-while of `onData`: on an incomplete message record the shortfall
and stop (returning the keys dispatched so far); otherwise look up the
handler under the key, slice `messageLength` bytes off, and continue while
bytes remain.  `none` means the given fuel was exhausted. -/
def onDataLoop : Nat → JSView → List Nat → Option (List Nat)
  | 0, _, _ => none
  | fuel + 1, v, acc =>
    let mlen := onDataMessageLength v
    if viewLen v < mlen then some acc
    else
      let acc1 := acc ++ [onDataKey v]
      let v1 : JSView := ⟨v.buf, v.off + mlen⟩
      if viewLen v1 = 0 then some acc1
      else onDataLoop fuel v1 acc1

/-- Follows the claim's words: the message length the handler is said to
compute, `round_up(16 + header_fields_length, 8) + body_length`. -/
def specMessageLength (b : List Nat) : Nat :=
  alignUp (16 + readU32 b 12) 8 + readU32 b 4

/-- The concrete valid method-return message used as failing input: its own
serial field is 99, its REPLY_SERIAL header field is 1, its body is empty. -/
def msgReturn99 : List Nat := buildMessage 2 99 [⟨5, HVal.hu32 1⟩] []

/-! ## Authentication (`Connection.tryAuth` / `Connection.open` of
`src/transport.ts`)

`open` writes a single zero byte and then calls `tryAuth`, which iterates the
method list and writes one AUTH line per method, with no reads in between;
the connection is resolved immediately afterwards. -/

/-- One item written to the socket during connection setup. -/
inductive WireWrite where
  | raw (bytes : List Nat)
  | text (s : String)
deriving DecidableEq

/-- The AUTH line `tryAuth` writes for one method name; unknown names throw. -/
def authMethodLine (hexid : String) (m : String) : Except String String :=
  if m = "EXTERNAL" then .ok ("AUTH EXTERNAL " ++ hexid ++ "\r\n")
  else if m = "ANONYMOUS" then .ok "AUTH ANONYMOUS \r\n"
  else .error ("Unsupported dbus auth method " ++ m)

/-- The lines `tryAuth` writes, in order, one per configured method. -/
def tryAuthWrites (hexid : String) : List String → Except String (List String)
  | [] => .ok []
  | m :: ms =>
    match authMethodLine hexid m with
    | .error e => .error e
    | .ok l =>
      match tryAuthWrites hexid ms with
      | .error e => .error e
      | .ok ls => .ok (l :: ls)

/-- Everything `Connection.open` writes before resolving: the null byte, then
all AUTH lines back to back. -/
def openWrites (hexid : String) (methods : List String) :
    Except String (List WireWrite) :=
  match tryAuthWrites hexid methods with
  | .error e => .error e
  | .ok ls => .ok (WireWrite.raw [0] :: ls.map WireWrite.text)

/-! ## The message builder (`Builder.build` of `src/message.ts`)

`Builder` uses the revision of the `Writer` whose `seek`, `cloneData` and
position-returning `pad` are not among the sources; those operations are
modelled from the spec (§4.1, §4.3, §9: padding "advances position to the
next multiple of `a`", `build` "returns the written prefix of the buffer",
and the correct rule of the §3 invariant is to be used).  The per-entry
writer output (`writeByte id`, the one-character signature, the marshalled
value) is abstracted as the byte chunk it appends after its `pad(8)`; the
body serializer likewise appends a byte chunk after the body pad. -/

/-- Modelled from the spec: `pad(a)` of the builder's writer revision, which
"advances position to the next multiple of `a ∈ {1,2,4,8}`, writing zeros
into the skipped bytes" (§4.1); the zero fill is the buffer's initial
contents. -/
def specPad (s : WState) (a : Nat) : WState := ⟨s.mem, alignUp s.pos a⟩

/-- Modelled from the spec: `seek(p)`, "explicit cursor manipulation" (§4.1). -/
def seekW (s : WState) (p : Nat) : WState := ⟨s.mem, p⟩

/-- One `writeHeader` call: `pad(8)` then the entry's bytes (id byte,
signature, marshalled value). -/
def writeHeaderW (s : WState) (chunk : List Nat) : WState :=
  appendBytesW (specPad s 8) chunk

/-- The `Builder` constructor: endianness `l`, kind, flags 0, version 1. -/
def builderInit (kind : Nat) : WState :=
  appendBytesW emptyW [108, kind, 0, 1]

/-- `Builder.build`, steps 1-2: seek to 16 and write each recorded header
entry in order. -/
def builderAfterEntries (kind : Nat) (hdrChunks : List (List Nat)) : WState :=
  hdrChunks.foldl writeHeaderW (seekW (builderInit kind) 16)

/-- `Builder.build`, step 4: store `position - 16` — the header-fields array
length, counting only the entries — at offset 12. -/
def builderAfterLen (kind : Nat) (hdrChunks : List (List Nat)) : WState :=
  setU32At (builderAfterEntries kind hdrChunks) 12
    ((builderAfterEntries kind hdrChunks).pos - 16)

/-- `Builder.build`, step 5: `pad(8)`; the resulting position is `bodyStart`. -/
def builderAtBody (kind : Nat) (hdrChunks : List (List Nat)) : WState :=
  specPad (builderAfterLen kind hdrChunks) 8

/-- `Builder.build`: after the steps above, append the marshalled body (if
any), store `position - bodyStart` (or 0) at offset 4, and return the written
prefix. -/
def builderBuild (kind : Nat) (hdrChunks : List (List Nat))
    (body : Option (List Nat)) : List Nat :=
  match body with
  | some bs =>
    let s4 := appendBytesW (builderAtBody kind hdrChunks) bs
    cloneW (setU32At s4 4 (s4.pos - (builderAtBody kind hdrChunks).pos))
  | none => cloneW (setU32At (builderAtBody kind hdrChunks) 4 0)

/-- The cursor position after the header-entry loop, starting from 16. -/
def entriesEndPos (hdrChunks : List (List Nat)) : Nat :=
  hdrChunks.foldl (fun p c => alignUp p 8 + c.length) 16

/-- The bytes of `seg` occur in `b` starting at offset `q`. -/
def SegAt (b : List Nat) (q : Nat) (seg : List Nat) : Prop :=
  ∀ i, i < seg.length → byteAt b (q + i) = byteAt seg i

/-! ## Theorems -/

/-- One `onData` loop iteration on the complete valid zero-body message: the
computed `messageLength` is the body-length field (0), so the slice removes
nothing and the state repeats. -/
theorem onDataLoop_step_msgReturn99 (n : Nat) (acc : List Nat) :
    onDataLoop (n + 1) ⟨msgReturn99, 0⟩ acc =
      onDataLoop n ⟨msgReturn99, 0⟩ (acc ++ [99]) := by
  have h1 : onDataMessageLength ⟨msgReturn99, 0⟩ = 0 := by decide
  have h2 : onDataKey ⟨msgReturn99, 0⟩ = 99 := by decide
  have h3 : viewLen ⟨msgReturn99, 0⟩ = 24 := by decide
  simp only [onDataLoop, h1, h2, Nat.add_zero, h3]
  norm_num

/-- C1: on the valid 24-byte message `msgReturn99` (header-fields length 8,
body length 0), the data handler's computed message length is the uint32 at
offset 4 — the body length, 0 — not `round_up(16 + 8, 8) + 0 = 24`, and with
that length the dispatch loop never terminates for any amount of fuel,
dispatching no message; the claimed behaviour would dispatch exactly this one
message. -/
theorem c1_reassembly_uses_offset4_and_diverges :
    readU32 msgReturn99 4 = 0 ∧ msgReturn99.length = 24 ∧
      specMessageLength msgReturn99 = 24 ∧
      ∀ fuel acc, onDataLoop fuel ⟨msgReturn99, 0⟩ acc = none := by
  refine ⟨by decide, by decide, by decide, ?_⟩
  intro fuel
  induction fuel with
  | zero => intro acc; rfl
  | succ n ih => intro acc; rw [onDataLoop_step_msgReturn99]; exact ih _

/-- C2: `1 << 31` in JavaScript is `-2^31`, so the wrap branch of
`sendAndReceive` fires on every send: the first and second outbound serials
are both 1, and in fact every outbound serial is 1 — the counter never
increments (and the untaken branch would add 2, not 1). -/
theorem c2_serial_counter_never_advances :
    jsShl 1 31 = -2147483648 ∧ serialAt 0 = 1 ∧ serialAt 1 = 1 ∧
      ∀ k, serialAt k = 1 := by
  refine ⟨by decide, rfl, by decide, ?_⟩
  intro k
  induction k with
  | zero => rfl
  | succ n ih => show nextCallIDJS (serialAt n) = 1; rw [ih]; decide

/-- C4: on the valid method-return `msgReturn99` (own serial 99,
REPLY_SERIAL header field 1), the connection's dispatch key is the uint32 at
offset 8 — the reply's own serial, 99 — while the claimed scan of the
header-fields array yields 1; moreover the code's `getReplySerial` scans only
up to `fields_length` (8), not `16 + fields_length`, and so returns 0 here. -/
theorem c4_dispatch_ignores_reply_serial :
    onDataKey ⟨msgReturn99, 0⟩ = 99 ∧
      getReplySerial msgReturn99 = Except.ok 0 ∧
      claimScanReplySerial msgReturn99 = Except.ok 1 ∧ (99 : Nat) ≠ 1 := by
  refine ⟨by decide, rfl, rfl, by decide⟩

/-- C5: `parseSignature "aas"` does not produce an array-of-array-of-string
codec; delivering a codec to an array frame never pops the frame (frames are
popped only by a closing bracket token), so both array frames are still open
at the end of the scan and parsing fails. -/
theorem c5_parse_aas_fails :
    parseSignature "aas" = Except.error "Incomplete DBus signature: aas" := by
  rfl

/-- C6: marshalling the empty array at cursor 0 back-patches length 4, not 0:
the subtraction starts from the position *before* the length slot's `pad(4)`
(which itself advances 4 at an aligned cursor), so the written length counts
the pad preceding the length field; the claimed value
`end - round_up(position_after_length, a) = 8 - 8` is 0. -/
theorem c6_empty_array_length_is_4 :
    cloneW (arraySerializeIntoW writeU32JS ([] : List Nat) emptyW) =
      [0, 0, 0, 0, 4, 0, 0, 0] ∧
      readU32 (cloneW (arraySerializeIntoW writeU32JS ([] : List Nat) emptyW)) 4 = 4 ∧
      alignUp 8 4 = 8 := by
  refine ⟨by decide, by decide, by decide⟩

/-- C7: `put_string("abc")` into an empty buffer yields 12 bytes — four pad
zeros from `pad(4)` at the aligned cursor, then the text bytes written over
the just-stored length field (`encodeString` uses the un-advanced offset) —
not the claimed 8 bytes `03 00 00 00 61 62 63 00`. -/
theorem c7_write_string_abc :
    cloneW (writeStringJS emptyW [97, 98, 99]) =
      [0, 0, 0, 0, 97, 98, 99, 0, 0, 0, 0, 0] ∧
      [0, 0, 0, 0, 97, 98, 99, 0, 0, 0, 0, 0] ≠ [3, 0, 0, 0, 97, 98, 99, 0] := by
  refine ⟨by decide, by decide⟩

/-- C8: `pad(4)` at position 0 — already a multiple of 4 — moves the cursor
to 4, and padding again moves it to 8: `pad` always advances by
`a - pos % a` and is neither a no-op at aligned positions nor idempotent;
the claimed position, the least multiple of 4 that is ≥ 0, is 0. -/
theorem c8_pad_not_idempotent :
    (padJS emptyW 4).pos = 4 ∧ (padJS (padJS emptyW 4) 4).pos = 8 ∧
      alignUp 0 4 = 0 := by
  refine ⟨by decide, by decide, by decide⟩

/-- C9: `open` with the configured method list writes the null byte and then
the AUTH lines of *both* methods immediately — the second is emitted without
any server reply in between (the model's trace has no read events because the
code performs none before resolving) — and no `BEGIN` line is ever written. -/
theorem c9_auth_lines_all_at_once :
    openWrites "31303030" ["EXTERNAL", "ANONYMOUS"] =
      Except.ok [WireWrite.raw [0],
        WireWrite.text "AUTH EXTERNAL 31303030\r\n",
        WireWrite.text "AUTH ANONYMOUS \r\n"] ∧
      WireWrite.text "BEGIN\r\n" ∉
        [WireWrite.raw ([0] : List Nat),
          WireWrite.text "AUTH EXTERNAL 31303030\r\n",
          WireWrite.text "AUTH ANONYMOUS \r\n"] := by
  refine ⟨rfl, by decide⟩

/-! ### Writer-state lemmas for the builder -/

theorem alignUp_ge (p a : Nat) (ha : 0 < a) : p ≤ alignUp p a := by
  unfold alignUp
  have h := Nat.div_add_mod (p + a - 1) a
  have h2 := Nat.mod_lt (p + a - 1) ha
  omega

theorem alignUp_of_le_16 : alignUp 16 8 = 16 := by decide

theorem appendBytesW_pos (bs : List Nat) :
    ∀ s : WState, (appendBytesW s bs).pos = s.pos + bs.length := by
  induction bs with
  | nil => intro s; rfl
  | cons b bs ih =>
    intro s
    show (appendBytesW (writeByteW s b) bs).pos = _
    rw [ih]
    simp [writeByteW]
    omega

theorem appendBytesW_mem_lt (bs : List Nat) :
    ∀ (s : WState) (j : Nat), j < s.pos → (appendBytesW s bs).mem j = s.mem j := by
  induction bs with
  | nil => intro s j _; rfl
  | cons b bs ih =>
    intro s j hj
    show (appendBytesW (writeByteW s b) bs).mem j = _
    rw [ih]
    · simp [writeByteW, setByteAt]
      intro h
      omega
    · simp [writeByteW]
      omega

theorem setU32At_pos (s : WState) (i v : Nat) : (setU32At s i v).pos = s.pos := rfl

theorem setU32At_mem_ne (s : WState) (i v j : Nat)
    (h0 : j ≠ i) (h1 : j ≠ i + 1) (h2 : j ≠ i + 2) (h3 : j ≠ i + 3) :
    (setU32At s i v).mem j = s.mem j := by
  simp [setU32At, setByteAt, h0, h1, h2, h3]

theorem setU32At_mem_at (s : WState) (i v : Nat) :
    (setU32At s i v).mem i = v % 256 ∧
      (setU32At s i v).mem (i + 1) = v / 256 % 256 ∧
      (setU32At s i v).mem (i + 2) = v / 65536 % 256 ∧
      (setU32At s i v).mem (i + 3) = v / 16777216 % 256 := by
  refine ⟨?_, ?_, ?_, ?_⟩ <;>
    · simp only [setU32At, setByteAt]
      repeat rw [if_neg (by omega)] <;> try rw [if_pos rfl]
      try rfl

theorem cloneW_length (s : WState) : (cloneW s).length = s.pos := by
  simp [cloneW]

theorem byteAt_append_lt (xs ys : List Nat) :
    ∀ j, j < xs.length → byteAt (xs ++ ys) j = byteAt xs j := by
  induction xs with
  | nil => intro j h; simp at h
  | cons x xs ih =>
    intro j h
    cases j with
    | zero => rfl
    | succ n =>
      show byteAt (xs ++ ys) n = byteAt xs n
      exact ih n (by simpa using h)

theorem byteAt_append_ge (xs ys : List Nat) :
    ∀ j, byteAt (xs ++ ys) (xs.length + j) = byteAt ys j := by
  induction xs with
  | nil =>
    intro j
    simp only [List.nil_append, List.length_nil, Nat.zero_add]
  | cons x xs ih =>
    intro j
    have hidx : (x :: xs).length + j = (xs.length + j) + 1 := by
      simp only [List.length_cons]
      omega
    rw [List.cons_append, hidx]
    show byteAt (xs ++ ys) (xs.length + j) = byteAt ys j
    exact ih j

theorem byteAt_range_map (f : Nat → Nat) :
    ∀ (n j : Nat), j < n → byteAt ((List.range n).map f) j = f j := by
  intro n
  induction n with
  | zero => intro j h; omega
  | succ m ih =>
    intro j h
    rw [List.range_succ, List.map_append]
    rcases Nat.lt_or_ge j m with hj | hj
    · rw [byteAt_append_lt _ _ j (by simpa using hj)]
      exact ih j hj
    · have hj2 : j = m := by omega
      subst hj2
      have hlen : ((List.range j).map f).length = j := by simp
      have hext := byteAt_append_ge ((List.range j).map f) ([f j]) 0
      rw [hlen, Nat.add_zero] at hext
      simpa using hext

theorem byteAt_cloneW (s : WState) (j : Nat) (h : j < s.pos) :
    byteAt (cloneW s) j = s.mem j := by
  unfold cloneW
  exact byteAt_range_map s.mem s.pos j h

/-! ### The builder's framing invariants -/

theorem writeHeaderW_pos (s : WState) (c : List Nat) :
    (writeHeaderW s c).pos = alignUp s.pos 8 + c.length := by
  unfold writeHeaderW specPad
  rw [appendBytesW_pos]

theorem entriesFold_pos (hdrs : List (List Nat)) :
    ∀ s : WState, (hdrs.foldl writeHeaderW s).pos =
      hdrs.foldl (fun p c => alignUp p 8 + c.length) s.pos := by
  induction hdrs with
  | nil => intro s; rfl
  | cons c cs ih =>
    intro s
    show (cs.foldl writeHeaderW (writeHeaderW s c)).pos = _
    rw [ih, writeHeaderW_pos]
    rfl

theorem entriesAccum_ge (hdrs : List (List Nat)) :
    ∀ p : Nat, p ≤ hdrs.foldl (fun p c => alignUp p 8 + c.length) p := by
  induction hdrs with
  | nil => intro p; exact le_refl p
  | cons c cs ih =>
    intro p
    calc p ≤ alignUp p 8 := alignUp_ge p 8 (by omega)
      _ ≤ alignUp p 8 + c.length := Nat.le_add_right _ _
      _ ≤ _ := ih _

theorem entriesFold_mem (hdrs : List (List Nat)) :
    ∀ (s : WState) (j : Nat), j < s.pos →
      (hdrs.foldl writeHeaderW s).mem j = s.mem j := by
  induction hdrs with
  | nil => intro s j _; rfl
  | cons c cs ih =>
    intro s j hj
    show (cs.foldl writeHeaderW (writeHeaderW s c)).mem j = _
    have hal := alignUp_ge s.pos 8 (by omega)
    have hpos : j < (writeHeaderW s c).pos := by
      rw [writeHeaderW_pos]
      omega
    rw [ih _ j hpos]
    unfold writeHeaderW
    rw [appendBytesW_mem_lt]
    · rfl
    · show j < (specPad s 8).pos
      unfold specPad
      simpa using by omega

theorem u32_digit_sum (v : Nat) (hv : v < 4294967296) :
    v % 256 + 256 * (v / 256 % 256) + 65536 * (v / 65536 % 256) +
      16777216 * (v / 16777216 % 256) = v := by
  omega

/-- C3: for every built message, the value stored at offset 12 is the cursor
position after the last header entry minus 16 (entries only, no trailing
pad), the body is laid down starting at `round_up(16 + header_fields_len, 8)`
(the returned prefix is exactly that start plus the body bytes), and the
body-length field at offset 4 equals the position after the last body byte
minus the body start, which is `total_len - round_up(16 + hfl, 8)`. -/
theorem c3_builder_framing (kind : Nat) (hdrChunks : List (List Nat)) (bs : List Nat)
    (h1 : entriesEndPos hdrChunks - 16 < 4294967296)
    (h2 : bs.length < 4294967296) :
    readU32 (builderBuild kind hdrChunks (some bs)) 12 = entriesEndPos hdrChunks - 16 ∧
      readU32 (builderBuild kind hdrChunks (some bs)) 4 = bs.length ∧
      (builderBuild kind hdrChunks (some bs)).length =
        alignUp (16 + (entriesEndPos hdrChunks - 16)) 8 + bs.length ∧
      readU32 (builderBuild kind hdrChunks (some bs)) 4 =
        (builderBuild kind hdrChunks (some bs)).length -
          alignUp (16 + (entriesEndPos hdrChunks - 16)) 8 := by
  have hP : 16 ≤ entriesEndPos hdrChunks := entriesAccum_ge hdrChunks 16
  have hs1pos : (builderAfterEntries kind hdrChunks).pos = entriesEndPos hdrChunks := by
    unfold builderAfterEntries entriesEndPos
    rw [entriesFold_pos]
    rfl
  have hs2pos : (builderAfterLen kind hdrChunks).pos = entriesEndPos hdrChunks := by
    unfold builderAfterLen
    rw [setU32At_pos, hs1pos]
  have hs3pos : (builderAtBody kind hdrChunks).pos = alignUp (entriesEndPos hdrChunks) 8 := by
    unfold builderAtBody specPad
    rw [hs2pos]
  have hA16 : 16 ≤ alignUp (entriesEndPos hdrChunks) 8 :=
    le_trans hP (alignUp_ge _ 8 (by omega))
  have halign : alignUp (16 + (entriesEndPos hdrChunks - 16)) 8 =
      alignUp (entriesEndPos hdrChunks) 8 := by
    congr 1
    omega
  have hs4pos : (appendBytesW (builderAtBody kind hdrChunks) bs).pos =
      alignUp (entriesEndPos hdrChunks) 8 + bs.length := by
    rw [appendBytesW_pos, hs3pos]
  have hv : (appendBytesW (builderAtBody kind hdrChunks) bs).pos -
      (builderAtBody kind hdrChunks).pos = bs.length := by
    rw [hs4pos, hs3pos]
    omega
  have hout : builderBuild kind hdrChunks (some bs) =
      cloneW (setU32At (appendBytesW (builderAtBody kind hdrChunks) bs) 4 bs.length) := by
    show cloneW (setU32At (appendBytesW (builderAtBody kind hdrChunks) bs) 4
      ((appendBytesW (builderAtBody kind hdrChunks) bs).pos -
        (builderAtBody kind hdrChunks).pos)) = _
    rw [hv]
  -- the final writer state
  have hfpos : (setU32At (appendBytesW (builderAtBody kind hdrChunks) bs) 4 bs.length).pos =
      alignUp (entriesEndPos hdrChunks) 8 + bs.length := by
    rw [setU32At_pos, hs4pos]
  have hlen : (builderBuild kind hdrChunks (some bs)).length =
      alignUp (entriesEndPos hdrChunks) 8 + bs.length := by
    rw [hout, cloneW_length, hfpos]
  -- bytes 4..7 of the final state hold the little-endian body length
  have hm4 := setU32At_mem_at (appendBytesW (builderAtBody kind hdrChunks) bs) 4 bs.length
  -- bytes 12..15 survive from builderAfterLen
  have hmem12 : ∀ k, k < 4 →
      (setU32At (appendBytesW (builderAtBody kind hdrChunks) bs) 4 bs.length).mem (12 + k) =
        (builderAfterLen kind hdrChunks).mem (12 + k) := by
    intro k hk
    rw [setU32At_mem_ne _ _ _ _ (by omega) (by omega) (by omega) (by omega)]
    rw [appendBytesW_mem_lt _ _ _ (by rw [hs3pos]; omega)]
    rfl
  have hm12 := setU32At_mem_at (builderAfterEntries kind hdrChunks) 12
    ((builderAfterEntries kind hdrChunks).pos - 16)
  have hval12 : (builderAfterEntries kind hdrChunks).pos - 16 = entriesEndPos hdrChunks - 16 := by
    rw [hs1pos]
  -- put it together: readU32 at 12
  have hread12 : readU32 (builderBuild kind hdrChunks (some bs)) 12 =
      entriesEndPos hdrChunks - 16 := by
    rw [hout]
    unfold readU32
    rw [byteAt_cloneW _ _ (by rw [hfpos]; omega), byteAt_cloneW _ _ (by rw [hfpos]; omega),
      byteAt_cloneW _ _ (by rw [hfpos]; omega), byteAt_cloneW _ _ (by rw [hfpos]; omega)]
    have e0 := hmem12 0 (by omega)
    have e1 := hmem12 1 (by omega)
    have e2 := hmem12 2 (by omega)
    have e3 := hmem12 3 (by omega)
    norm_num at e0 e1 e2 e3
    rw [e0, e1, e2, e3]
    show (builderAfterLen kind hdrChunks).mem 12 + 256 * (builderAfterLen kind hdrChunks).mem (12+1) +
      65536 * (builderAfterLen kind hdrChunks).mem (12+2) +
      16777216 * (builderAfterLen kind hdrChunks).mem (12+3) = entriesEndPos hdrChunks - 16
    unfold builderAfterLen
    rw [hm12.1, hm12.2.1, hm12.2.2.1, hm12.2.2.2, hval12]
    exact u32_digit_sum _ h1
  have hread4 : readU32 (builderBuild kind hdrChunks (some bs)) 4 = bs.length := by
    rw [hout]
    unfold readU32
    rw [byteAt_cloneW _ _ (by rw [hfpos]; omega), byteAt_cloneW _ _ (by rw [hfpos]; omega),
      byteAt_cloneW _ _ (by rw [hfpos]; omega), byteAt_cloneW _ _ (by rw [hfpos]; omega)]
    rw [hm4.1, hm4.2.1, hm4.2.2.1, hm4.2.2.2]
    exact u32_digit_sum _ h2
  refine ⟨hread12, hread4, by rw [hlen, halign], ?_⟩
  rw [hread4, hlen, halign]
  omega

/-- C3 witness: the framing invariants instantiated with one object-path-like
header chunk and a one-byte body. -/
theorem c3_builder_framing_witness :
    (entriesEndPos [[1, 1, 111, 0]] - 16 < 4294967296 ∧
        ([7] : List Nat).length < 4294967296) ∧
      (readU32 (builderBuild 1 [[1, 1, 111, 0]] (some [7])) 12 =
          entriesEndPos [[1, 1, 111, 0]] - 16 ∧
        readU32 (builderBuild 1 [[1, 1, 111, 0]] (some [7])) 4 =
          ([7] : List Nat).length ∧
        (builderBuild 1 [[1, 1, 111, 0]] (some [7])).length =
          alignUp (16 + (entriesEndPos [[1, 1, 111, 0]] - 16)) 8 +
            ([7] : List Nat).length ∧
        readU32 (builderBuild 1 [[1, 1, 111, 0]] (some [7])) 4 =
          (builderBuild 1 [[1, 1, 111, 0]] (some [7])).length -
            alignUp (16 + (entriesEndPos [[1, 1, 111, 0]] - 16)) 8) :=
  ⟨⟨by decide, by decide⟩, c3_builder_framing 1 [[1, 1, 111, 0]] [7] (by decide) (by decide)⟩

/-! ### Scanning well-formed header-field regions -/

theorem segAt_nil (b : List Nat) (q : Nat) : SegAt b q [] := by
  intro i hi
  simp at hi

theorem segAt_cons (b : List Nat) (q x : Nat) (xs : List Nat) :
    SegAt b q (x :: xs) ↔ byteAt b q = x ∧ SegAt b (q + 1) xs := by
  constructor
  · intro h
    refine ⟨?_, ?_⟩
    · have h0 := h 0 (by simp)
      simpa using h0
    · intro i hi
      have hs := h (i + 1) (by simpa using Nat.succ_lt_succ hi)
      rw [show q + (i + 1) = q + 1 + i from by omega] at hs
      exact hs
  · rintro ⟨h1, h2⟩ i hi
    cases i with
    | zero => simpa using h1
    | succ n =>
      have hs := h2 n (by simpa using Nat.lt_of_succ_lt_succ hi)
      rw [show q + (n + 1) = q + 1 + n from by omega]
      exact hs

theorem segAt_append (b : List Nat) (xs ys : List Nat) (q : Nat) :
    SegAt b q (xs ++ ys) ↔ SegAt b q xs ∧ SegAt b (q + xs.length) ys := by
  induction xs generalizing q with
  | nil =>
    constructor
    · intro h
      exact ⟨segAt_nil b q, by simpa using h⟩
    · rintro ⟨-, h⟩
      simpa using h
  | cons x xs ih =>
    rw [List.cons_append, segAt_cons, segAt_cons, ih (q + 1)]
    rw [show q + (x :: xs).length = q + 1 + xs.length from by simp; omega]
    tauto

theorem segAt_whole (b : List Nat) : SegAt b 0 b := by
  intro i hi
  rw [Nat.zero_add]

theorem segAt_readU32 (b : List Nat) (q v : Nat) (hs : SegAt b q (u32le v))
    (hv : v < 4294967296) : readU32 b q = v := by
  have h0 := hs 0 (by simp [u32le])
  have h1 := hs 1 (by simp [u32le])
  have h2 := hs 2 (by simp [u32le])
  have h3 := hs 3 (by simp [u32le])
  simp [u32le, byteAt] at h0 h1 h2 h3
  unfold readU32
  rw [h0, h1, h2, h3]
  exact u32_digit_sum v hv

theorem encodeEntriesFrom_len_ge (es : List HEntry) :
    ∀ p, es.length ≤ (encodeEntriesFrom p es).length := by
  induction es with
  | nil => intro p; simp [encodeEntriesFrom]
  | cons e es ih =>
    intro p
    have hr := ih (alignUp p 8 + (entryBytes e).length)
    have hb : 1 ≤ (entryBytes e).length := by
      cases h : e.val <;> simp [entryBytes, h]
    simp only [encodeEntriesFrom, List.length_append, List.length_cons,
      List.length_replicate]
    omega

/-- One unfolding of the scan loop at positive fuel. -/
theorem grsLoop_succ (b : List Nat) (limit f n : Nat) :
    grsLoop b limit (f + 1) n =
      if n < limit then
        if byteAt b (n + 2) = 115 ∨ byteAt b (n + 2) = 111 then
          grsLoop b limit f (alignUp (n + 4 + (5 + readU32 b (n + 4))) 8)
        else if byteAt b (n + 2) = 117 then
          if byteAt b n = 5 then Except.ok (readU32 b (n + 4))
          else grsLoop b limit f (alignUp (n + 4 + 4) 8)
        else if byteAt b (n + 2) = 103 then
          grsLoop b limit f (alignUp (n + 4 + (2 + byteAt b (n + 4))) 8)
        else Except.error "Unrecognized header data type"
      else Except.ok 0 := rfl

theorem grsLoop_scan_no5 (b : List Nat) (flen : Nat) :
    ∀ (es : List HEntry) (q fuel : Nat),
      es.length + 1 ≤ fuel → 16 ≤ q →
      q + (encodeEntriesFrom q es).length = 16 + flen →
      SegAt b q (encodeEntriesFrom q es) →
      (∀ e ∈ es, wfEntry e) → (∀ e ∈ es, e.id ≠ 5) →
      grsLoop b flen fuel (alignUp q 8) = Except.ok 0 := by
  intro es
  induction es with
  | nil =>
    intro q fuel hfuel hq hlen _ _ _
    simp [encodeEntriesFrom] at hlen
    obtain ⟨f, rfl⟩ : ∃ f, fuel = f + 1 := ⟨fuel - 1, by omega⟩
    have hge : ¬ (alignUp q 8 < flen) := by
      have := alignUp_ge q 8 (by omega)
      omega
    rw [grsLoop_succ, if_neg hge]
  | cons e es ih =>
    intro q fuel hfuel hq hlen hseg hwf hno5
    simp only [List.length_cons] at hfuel
    obtain ⟨f, rfl⟩ : ∃ f, fuel = f + 1 := ⟨fuel - 1, by omega⟩
    have ha := alignUp_ge q 8 (by omega)
    have hwfe := hwf e (by simp)
    have hno5e := hno5 e (by simp)
    have hwftl : ∀ x ∈ es, wfEntry x := fun x hx => hwf x (by simp [hx])
    have hno5tl : ∀ x ∈ es, x.id ≠ 5 := fun x hx => hno5 x (by simp [hx])
    rw [encodeEntriesFrom] at hseg hlen
    rw [segAt_append, segAt_append] at hseg
    obtain ⟨⟨-, hsegE⟩, hsegR⟩ := hseg
    rw [List.length_replicate, show q + (alignUp q 8 - q) = alignUp q 8 from by omega] at hsegE
    rw [List.length_append, List.length_replicate,
      show q + ((alignUp q 8 - q) + (entryBytes e).length) = alignUp q 8 + (entryBytes e).length
        from by omega] at hsegR
    simp only [List.length_append, List.length_replicate] at hlen
    have hlen2 : alignUp q 8 + (entryBytes e).length +
        (encodeEntriesFrom (alignUp q 8 + (entryBytes e).length) es).length = 16 + flen := by
      omega
    rw [grsLoop_succ]
    by_cases hlt : alignUp q 8 < flen
    case neg => rw [if_neg hlt]
    case pos =>
    rw [if_pos hlt]
    obtain ⟨hid, hval⟩ := hwfe
    cases hv : e.val with
    | hstr tb s =>
      have hEB : entryBytes e = [e.id, 1, tb, 0] ++ u32le s.length ++ s ++ [0] := by
        simp [entryBytes, hv]
      have hlenEB : (entryBytes e).length = 9 + s.length := by
        rw [hEB]
        simp [u32le]
        omega
      rw [hEB] at hsegE
      rw [segAt_append, segAt_append, segAt_append] at hsegE
      obtain ⟨⟨⟨hseg4, hsegU⟩, -⟩, -⟩ := hsegE
      rw [show ([e.id, 1, tb, 0] : List Nat).length = 4 from rfl] at hsegU
      rw [segAt_cons, segAt_cons, segAt_cons] at hseg4
      obtain ⟨hb0, -, hb2, -⟩ := hseg4
      rw [show alignUp q 8 + 1 + 1 = alignUp q 8 + 2 from by omega] at hb2
      rw [hv] at hval
      obtain ⟨htb, hslen, -⟩ := hval
      have hreadU : readU32 b (alignUp q 8 + 4) = s.length :=
        segAt_readU32 b (alignUp q 8 + 4) s.length hsegU hslen
      rw [hb2]
      rcases htb with rfl | rfl
      · rw [if_pos (Or.inr rfl), hreadU,
          show alignUp q 8 + 4 + (5 + s.length) = alignUp q 8 + (entryBytes e).length
            from by rw [hlenEB]; omega]
        exact ih (alignUp q 8 + (entryBytes e).length) f (by omega) (by omega) hlen2
          hsegR hwftl hno5tl
      · rw [if_pos (Or.inl rfl), hreadU,
          show alignUp q 8 + 4 + (5 + s.length) = alignUp q 8 + (entryBytes e).length
            from by rw [hlenEB]; omega]
        exact ih (alignUp q 8 + (entryBytes e).length) f (by omega) (by omega) hlen2
          hsegR hwftl hno5tl
    | hu32 val =>
      have hEB : entryBytes e = [e.id, 1, 117, 0] ++ u32le val := by
        simp [entryBytes, hv]
      have hlenEB : (entryBytes e).length = 8 := by
        rw [hEB]
        simp [u32le]
      rw [hEB] at hsegE
      rw [segAt_append] at hsegE
      obtain ⟨hseg4, -⟩ := hsegE
      rw [segAt_cons, segAt_cons, segAt_cons] at hseg4
      obtain ⟨hb0, -, hb2, -⟩ := hseg4
      rw [show alignUp q 8 + 1 + 1 = alignUp q 8 + 2 from by omega] at hb2
      rw [hb2, hb0]
      rw [if_neg (by norm_num), if_pos rfl, if_neg hno5e,
        show alignUp q 8 + 4 + 4 = alignUp q 8 + (entryBytes e).length from by rw [hlenEB]]
      exact ih (alignUp q 8 + (entryBytes e).length) f (by omega) (by omega) hlen2
        hsegR hwftl hno5tl
    | hsig s =>
      have hEB : entryBytes e = [e.id, 1, 103, 0] ++ [s.length] ++ s ++ [0] := by
        simp [entryBytes, hv]
      have hlenEB : (entryBytes e).length = 6 + s.length := by
        rw [hEB]
        simp
        omega
      rw [hEB] at hsegE
      rw [segAt_append, segAt_append, segAt_append] at hsegE
      obtain ⟨⟨⟨hseg4, hsegL⟩, -⟩, -⟩ := hsegE
      rw [show ([e.id, 1, 103, 0] : List Nat).length = 4 from rfl] at hsegL
      rw [segAt_cons] at hsegL
      obtain ⟨hbl, -⟩ := hsegL
      rw [segAt_cons, segAt_cons, segAt_cons] at hseg4
      obtain ⟨hb0, -, hb2, -⟩ := hseg4
      rw [show alignUp q 8 + 1 + 1 = alignUp q 8 + 2 from by omega] at hb2
      rw [hb2]
      rw [if_neg (by norm_num), if_neg (by norm_num), if_pos rfl, hbl,
        show alignUp q 8 + 4 + (2 + s.length) = alignUp q 8 + (entryBytes e).length
          from by rw [hlenEB]; omega]
      exact ih (alignUp q 8 + (entryBytes e).length) f (by omega) (by omega) hlen2
        hsegR hwftl hno5tl

/-- C10: for every well-formed little-endian message whose header-fields
array contains no entry with id 5, `Reader.getReplySerial` returns 0 — the
reserved "no reply serial" value — and raises no error: the scan only ever
lands on genuine entry boundaries, every declared type byte of a well-formed
entry is one the switch recognises, and the loop falls through to `return 0`. -/
theorem c10_reply_serial_zero (kind serial : Nat) (entries : List HEntry)
    (body : List Nat)
    (hwf : ∀ e ∈ entries, wfEntry e) (hno5 : ∀ e ∈ entries, e.id ≠ 5)
    (hflen : (encodeEntriesFrom 16 entries).length < 4294967296) :
    getReplySerial (buildMessage kind serial entries body) = Except.ok 0 := by
  have hwhole := segAt_whole (buildMessage kind serial entries body)
  have hMdef : buildMessage kind serial entries body =
      msgHeader16 kind body.length serial (encodeEntriesFrom 16 entries).length ++
        encodeEntriesFrom 16 entries ++
        List.replicate
          (alignUp (16 + (encodeEntriesFrom 16 entries).length) 8 -
            (16 + (encodeEntriesFrom 16 entries).length)) 0 ++ body := rfl
  nth_rewrite 2 [hMdef] at hwhole
  rw [segAt_append, segAt_append, segAt_append] at hwhole
  obtain ⟨⟨⟨hsegH, hsegR⟩, -⟩, -⟩ := hwhole
  rw [show (msgHeader16 kind body.length serial
      (encodeEntriesFrom 16 entries).length).length = 16 from by
    simp [msgHeader16, u32le]] at hsegR
  rw [Nat.zero_add] at hsegR
  unfold msgHeader16 at hsegH
  rw [segAt_append, segAt_append, segAt_append] at hsegH
  obtain ⟨⟨⟨-, -⟩, -⟩, hseg12⟩ := hsegH
  rw [show (0 : Nat) +
      ([108, kind, 0, 1] ++ u32le body.length ++ u32le serial).length = 12 from by
    simp [u32le]] at hseg12
  have h12 : readU32 (buildMessage kind serial entries body) 12 =
      (encodeEntriesFrom 16 entries).length :=
    segAt_readU32 _ 12 _ hseg12 hflen
  have hcnt := encodeEntriesFrom_len_ge entries 16
  have hmain := grsLoop_scan_no5 (buildMessage kind serial entries body)
    (encodeEntriesFrom 16 entries).length entries 16
    ((encodeEntriesFrom 16 entries).length + 1) (by omega) (by omega) rfl
    hsegR hwf hno5
  rw [show alignUp 16 8 = 16 from by decide] at hmain
  unfold getReplySerial
  rw [h12]
  exact hmain

/-- C10 witness: a message with a single MEMBER-style string entry (id 3),
where `getReplySerial` returns 0. -/
theorem c10_reply_serial_zero_witness :
    ((∀ e ∈ ([⟨3, HVal.hstr 115 [109]⟩] : List HEntry), wfEntry e) ∧
        (∀ e ∈ ([⟨3, HVal.hstr 115 [109]⟩] : List HEntry), e.id ≠ 5) ∧
        (encodeEntriesFrom 16 [⟨3, HVal.hstr 115 [109]⟩]).length < 4294967296) ∧
      getReplySerial (buildMessage 1 7 [⟨3, HVal.hstr 115 [109]⟩] []) =
        Except.ok 0 :=
  ⟨⟨by decide, by decide, by decide⟩,
    c10_reply_serial_zero 1 7 [⟨3, HVal.hstr 115 [109]⟩] []
      (by decide) (by decide) (by decide)⟩
